import Mathlib

/-!
Shallow embedding of the TWYA timeline core (`src/app.py`).

Dates are modelled as `Option Int` — the value of a `StartDate`/`EndDate`
cell after `pd.to_datetime(..., errors="coerce")`, counted in days
(`none` is `NaT`: the cell was absent or unparsable).  Text columns that
may hold `NaN` are `Option String`.  `pandas.sort_values` on several
columns uses `numpy.lexsort`, which is a stable sort; a stable sort by
a total preorder key is uniquely determined, so it is embedded as a
stable insertion sort on the (Team, StartDate) key.
-/

namespace TWYA

/-- Stable insertion of an element into a list: the element lands in
front of the first entry it is `le`-below-or-tied-with, hence in front
of every later-arriving tie. -/
def sortInsert (le : α → α → Bool) (x : α) : List α → List α
  | [] => [x]
  | y :: ys => if le x y then x :: y :: ys else y :: sortInsert le x ys

/-- Stable sort by a boolean total preorder: the unique stable sort,
and thus the embedding of `numpy.lexsort` / Python `sorted`. -/
def stableSort (le : α → α → Bool) : List α → List α
  | [] => []
  | x :: xs => sortInsert le x (stableSort le xs)

/-- A raw tabular row after the column/status renaming of `load_data`:
the input of `clean_and_validate_data`. -/
structure RawRow where
  team : String
  eventName : String
  level : Option String
  status : Option String
  notes : Option String
  startTime : Option String
  endTime : Option String
  startDate : Option Int
  endDate : Option Int
deriving DecidableEq

/-- A cleaned row: all optional text columns filled, `EventType` added
(`"deadline"` or `"normal"`). -/
structure Row where
  team : String
  eventName : String
  level : String
  status : String
  notes : String
  startTime : String
  endTime : String
  startDate : Option Int
  endDate : Option Int
  eventType : String
deriving DecidableEq

/-- Per-row normalization part of `clean_and_validate_data`
(`app.py` lines 408-435): fill the optional columns with the policy
defaults, and when `StartDate` is absent but `EndDate` is present set
`StartDate := EndDate - 1 day` and mark the row as a deadline. -/
def normalizeRow (r : RawRow) : Row :=
  { team := r.team
    eventName := r.eventName
    level := r.level.getD "執行"
    status := r.status.getD "ToDo"
    notes := r.notes.getD ""
    startTime := r.startTime.getD ""
    endTime := r.endTime.getD ""
    startDate :=
      if r.startDate = none ∧ r.endDate.isSome then r.endDate.map (· - 1)
      else r.startDate
    endDate := r.endDate
    eventType :=
      if r.startDate = none ∧ r.endDate.isSome then "deadline" else "normal" }

/-- Inverted-range repair of `clean_and_validate_data` (`app.py` lines
441-444): when `EndDate < StartDate`, swap the two columns.  A `NaT`
comparison is `False` in pandas, so rows with a missing bound are left
unchanged. -/
def swapFix (r : Row) : Row :=
  match r.startDate, r.endDate with
  | some s, some e =>
      if e < s then { r with startDate := some e, endDate := some s } else r
  | _, _ => r

/-- Code-point lexicographic comparison of character lists: the order
Python uses for `str` comparison inside `sorted` and `sort_values`. -/
def charListLt : List Char → List Char → Bool
  | _, [] => false
  | [], _ :: _ => true
  | x :: xs, y :: ys =>
      if x.val.toNat < y.val.toNat then true
      else if y.val.toNat < x.val.toNat then false
      else charListLt xs ys

/-- Strict lexicographic order on strings by Unicode code point
(Python `str.__lt__`). -/
def strLt (a b : String) : Bool := charListLt a.data b.data

/-- Comparison used by `sort_values(['StartDate'])` within one team:
ascending, with `NaT` placed last (pandas `na_position='last'`). -/
def optStartLE : Option Int → Option Int → Bool
  | some a, some b => decide (a ≤ b)
  | some _, none => true
  | none, none => true
  | none, some _ => false

/-- The (Team, StartDate) lexicographic key of
`sort_values(['Team', 'StartDate'], ascending=[True, True])`. -/
def rowLE (a b : Row) : Bool :=
  if a.team = b.team then optStartLE a.startDate b.startDate
  else strLt a.team b.team

/-- The rows surviving cleaning, before the final sort: normalize each
row, drop the rows with no `EndDate`, repair inverted ranges. -/
def survivors (df : List RawRow) : List Row :=
  ((df.map normalizeRow).filter (fun r => r.endDate.isSome)).map swapFix

/-- Embedding of `clean_and_validate_data` (`app.py` lines 393-455):
normalize, drop end-less rows, repair inverted ranges, then stable-sort
by (Team, StartDate). -/
def clean_and_validate_data (df : List RawRow) : List Row :=
  stableSort rowLE (survivors df)

/-- A displayed event: a cleaned row together with its position after
`reset_index(drop=True)`, which doubles as the vertical display slot
(`y=[idx, idx]` in the trace loop). -/
structure Event where
  team : String
  eventName : String
  level : String
  status : String
  notes : String
  startTime : String
  endTime : String
  startDate : Option Int
  endDate : Option Int
  eventType : String
  order : Nat
deriving DecidableEq

/-- Attach zero-based positions to the sorted rows, mirroring
`reset_index(drop=True)`. -/
def attachOrders : Nat → List Row → List Event
  | _, [] => []
  | i, r :: rs =>
      { team := r.team, eventName := r.eventName, level := r.level
        status := r.status, notes := r.notes, startTime := r.startTime
        endTime := r.endTime, startDate := r.startDate, endDate := r.endDate
        eventType := r.eventType, order := i } :: attachOrders (i + 1) rs

/-- The full Event collection produced from a raw snapshot. -/
def events (df : List RawRow) : List Event :=
  attachOrders 0 (clean_and_validate_data df)

/-- Fixed table of preferred colors for known team names
(`default_colors` in `get_team_color_mapping`). -/
def default_colors : List (String × String) :=
  [("行政組", "#1E88E5"), ("活動組", "#43A047"), ("公關組", "#E53935"),
   ("財務組", "#FB8C00"), ("教育組", "#8E24AA"), ("資訊組", "#00ACC1"),
   ("企劃組", "#F9A825"), ("研發組", "#5E35B1"), ("理事長", "#C62828")]

/-- Cyclic fallback palette (`plotly_colors` in `get_team_color_mapping`). -/
def plotly_colors : List String :=
  ["#1E88E5", "#43A047", "#E53935", "#FB8C00", "#8E24AA",
   "#00ACC1", "#F9A825", "#5E35B1", "#00897B", "#D81B60"]

/-- First-match association-list lookup (Python `dict` lookup). -/
def lookupOpt (tbl : List (String × String)) (k : String) : Option String :=
  match tbl with
  | [] => none
  | (a, b) :: rest => if a = k then some b else lookupOpt rest k

/-- Lookup with a default (Python `dict.get(k, d)`). -/
def lookupD (tbl : List (String × String)) (k : String) (d : String) : String :=
  (lookupOpt tbl k).getD d

/-- The `sorted(teams.unique())` step: the distinct team names in
lexicographic order. -/
def sortedUnique (teams : List String) : List String :=
  stableSort (fun a b => !strLt b a) teams.dedup

/-- The `for i, team in enumerate(...)` loop body of
`get_team_color_mapping`: a known team keeps its preferred color, any
other team takes the fallback color indexed by its enumeration rank
modulo the palette length. -/
def assignColors : Nat → List String → List (String × String)
  | _, [] => []
  | i, t :: ts =>
      (t, match lookupOpt default_colors t with
          | some c => c
          | none => plotly_colors.getD (i % plotly_colors.length) "")
        :: assignColors (i + 1) ts

/-- Embedding of `get_team_color_mapping` (`app.py` lines 462-498). -/
def get_team_color_mapping (teams : List String) : List (String × String) :=
  assignColors 0 (sortedUnique teams)

/-- The color assigned to one team by `get_team_color_mapping`. -/
def teamColor (teams : List String) (t : String) : String :=
  lookupD (get_team_color_mapping teams) t ""

/-- Rank of a string in a list (position of its first occurrence). -/
def rankIn (t : String) : List String → Nat
  | [] => 0
  | a :: as => if a = t then 0 else rankIn t as + 1

/-- Filtering step of `create_timeline_chart` (`app.py` lines 531-538):
each of the three `isin` filters is skipped when its selection is empty
(Python truthiness of the `selected_*` lists). -/
def filterEvents (df : List Event) (selTeams selStatus selLevels : List String) :
    List Event :=
  let d1 := if selTeams.isEmpty then df
            else df.filter (fun e => selTeams.contains e.team)
  let d2 := if selStatus.isEmpty then d1
            else d1.filter (fun e => selStatus.contains e.status)
  if selLevels.isEmpty then d2
  else d2.filter (fun e => selLevels.contains e.level)

/-- One plotted event bar: the fields of the `go.Scatter` trace the
claims are about (team, assigned color, vertical slot `y=idx`, the two
x coordinates). -/
structure Trace where
  team : String
  color : String
  y : Nat
  x0 : Option Int
  x1 : Option Int
  eventType : String
deriving DecidableEq

/-- The display-ready output of `create_timeline_chart`: the event
traces, the default viewport `range=[one_month_ago, max_end_date]`, the
clamped chart height and the `today` marker. -/
structure Chart where
  traces : List Trace
  viewportLo : Int
  viewportHi : Option Int
  height : Nat
  today : Int
deriving DecidableEq

/-- The `df_filtered['EndDate'].max()` step: maximum of the present end
dates, `none` when every end date is `NaT` (pandas skips `NaT`). -/
def maxEndStep (acc : Option Int) (e : Event) : Option Int :=
  match acc, e.endDate with
  | none, d => d
  | some m, none => some m
  | some m, some d => some (max m d)

def maxEndDate (l : List Event) : Option Int :=
  l.foldl maxEndStep none

/-- Embedding of `create_timeline_chart` (`app.py` lines 529-762):
filter, short-circuit to `none` on an empty filtered set, build one
trace per filtered event with the team color taken from the full
(unfiltered) collection, clamp the height, and set the default viewport
to `[now - 30 days, max filtered EndDate]`.  `now` is the value of
`datetime.now()` during the run, in days. -/
def create_timeline_chart (df : List Event)
    (selTeams selStatus selLevels : List String) (now : Int) : Option Chart :=
  let fil := filterEvents df selTeams selStatus selLevels
  if fil.isEmpty then none
  else
    let cm := get_team_color_mapping (df.map (·.team))
    some
      { traces := fil.map (fun e =>
          { team := e.team, color := lookupD cm e.team ""
            y := e.order, x0 := e.startDate, x1 := e.endDate
            eventType := e.eventType })
        viewportLo := now - 30
        viewportHi := maxEndDate fil
        height := max 400 (min 800 (fil.length * 50))
        today := now }

/-- The trace list of a run, `[]` when the chart short-circuits. -/
def chartTraces (df : List Event)
    (selTeams selStatus selLevels : List String) (now : Int) : List Trace :=
  match create_timeline_chart df selTeams selStatus selLevels now with
  | none => []
  | some c => c.traces

/-- Fixed status-vocabulary table of `load_data` (`app.py` lines
327-334). -/
def status_mapping : List (String × String) :=
  [("未開始", "ToDo"), ("進行中", "WIP"), ("已完成", "Done"),
   ("完成", "Done"), ("阻塞", "Blocked"), ("暫停", "Pending")]

/-- The five canonical status values. -/
def canonicalStatuses : List String :=
  ["ToDo", "WIP", "Done", "Blocked", "Pending"]

/-- Embedding of the status translation
`status_mapping.get(x, x)` applied to each non-null Status cell in
`load_data` (`app.py` line 336). -/
def translateStatus (s : String) : String :=
  lookupD status_mapping s s

/-- Days since 1970-01-01 of a proleptic-Gregorian calendar date, so
that concrete dates of the spec's examples can be written down. -/
def dateToDays (y m d : Nat) : Int :=
  let yy : Int := if m ≤ 2 then (y : Int) - 1 else (y : Int)
  let era : Int := (if 0 ≤ yy then yy else yy - 399) / 400
  let yoe : Int := yy - era * 400
  let mp : Int := ((m : Int) + 9) % 12
  let doy : Int := (153 * mp + 2) / 5 + (d : Int) - 1
  let doe : Int := yoe * 365 + yoe / 4 - yoe / 100 + doy
  era * 146097 + doe - 719468

/-! Concrete fixtures used by the witness checks. -/

/-- Raw-row constructor for the concrete checks. -/
def mkRaw (t n : String) (s e : Option Int) : RawRow :=
  { team := t, eventName := n, level := none, status := none, notes := none,
    startTime := none, endTime := none, startDate := s, endDate := e }

/-- Event constructor for the concrete checks. -/
def mkEv (t st lv : String) (s e : Option Int) (o : Nat) : Event :=
  { team := t, eventName := "e", level := lv, status := st, notes := "",
    startTime := "", endTime := "", startDate := s, endDate := e,
    eventType := "normal", order := o }

def c1df : List RawRow :=
  [mkRaw "B" "b1" (some 3) (some 4), mkRaw "A" "a1" (some 5) (some 6),
   mkRaw "A" "a2" (some 5) (some 2)]

def c3df : List RawRow :=
  [mkRaw "公關組" "w" (some (dateToDays 2024 5 10)) (some (dateToDays 2024 5 1))]

def c3pre : Row :=
  { team := "公關組", eventName := "w", level := "執行", status := "ToDo",
    notes := "", startTime := "", endTime := "",
    startDate := some (dateToDays 2024 5 10),
    endDate := some (dateToDays 2024 5 1), eventType := "normal" }

def c3row : Row :=
  { team := "公關組", eventName := "w", level := "執行", status := "ToDo",
    notes := "", startTime := "", endTime := "",
    startDate := some (dateToDays 2024 5 1),
    endDate := some (dateToDays 2024 5 10), eventType := "normal" }

def c4df : List RawRow :=
  [mkRaw "A" "x" (some 1) none, mkRaw "B" "y" (some 1) (some 2)]

def c4row : Row :=
  { team := "B", eventName := "y", level := "執行", status := "ToDo",
    notes := "", startTime := "", endTime := "", startDate := some 1,
    endDate := some 2, eventType := "normal" }

def c5events : List Event :=
  [mkEv "A" "Done" "執行" (some (dateToDays 2024 7 1))
     (some (dateToDays 2024 8 1)) 0,
   mkEv "B" "WIP" "執行" (some (dateToDays 2024 7 2))
     (some (dateToDays 2024 9 1)) 1]

def c7evs : List Event :=
  [mkEv "A" "Done" "執行" (some 1) (some 2) 0,
   mkEv "B" "WIP" "執行" (some 1) (some 3) 1]

def c7trace : Trace :=
  { team := "A", color := "#1E88E5", y := 0, x0 := some 1, x1 := some 2,
    eventType := "normal" }

def c8events : List Event := [mkEv "A" "Done" "執行" (some 1) (some 2) 0]

def c10df : List RawRow := [mkRaw "A" "x" none (some 3)]

def c10row : Row :=
  { team := "A", eventName := "x", level := "執行", status := "ToDo",
    notes := "", startTime := "", endTime := "", startDate := some 2,
    endDate := some 3, eventType := "deadline" }

/-! Order facts about the code-point comparison. -/

theorem charListLt_irrefl : ∀ l, charListLt l l = false
  | [] => rfl
  | a :: as => by simp [charListLt, charListLt_irrefl as]

theorem charListLt_asymm : ∀ {a b : List Char}, charListLt a b = true →
    charListLt b a = false
  | [], [], h => by simp [charListLt] at h
  | [], _ :: _, _ => rfl
  | _ :: _, [], h => by simp [charListLt] at h
  | a :: as, b :: bs, h => by
    simp only [charListLt] at h ⊢
    by_cases h1 : a.val.toNat < b.val.toNat
    · have h2 : ¬ b.val.toNat < a.val.toNat := by omega
      simp [h1, h2]
    · by_cases h2 : b.val.toNat < a.val.toNat
      · simp [h1, h2] at h
      · simp only [h1, h2, if_false] at h ⊢
        exact charListLt_asymm h

theorem charListLt_trans : ∀ {a b c : List Char}, charListLt a b = true →
    charListLt b c = true → charListLt a c = true
  | [], b, c, h1, h2 => by
    cases b with
    | nil => simp [charListLt] at h1
    | cons b bs =>
      cases c with
      | nil => simp [charListLt] at h2
      | cons c cs => rfl
  | a :: as, b, c, h1, h2 => by
    cases b with
    | nil => simp [charListLt] at h1
    | cons b bs =>
      cases c with
      | nil => simp [charListLt] at h2
      | cons c cs =>
        simp only [charListLt] at h1 h2 ⊢
        by_cases hxy : a.val.toNat < b.val.toNat
        · by_cases hyz : b.val.toNat < c.val.toNat
          · have : a.val.toNat < c.val.toNat := by omega
            simp [this]
          · by_cases hzy : c.val.toNat < b.val.toNat
            · simp [hyz, hzy] at h2
            · have : a.val.toNat < c.val.toNat := by omega
              simp [this]
        · by_cases hyx : b.val.toNat < a.val.toNat
          · simp [hxy, hyx] at h1
          · have hv : a.val.toNat = b.val.toNat := by omega
            by_cases hyz : b.val.toNat < c.val.toNat
            · have : a.val.toNat < c.val.toNat := by omega
              simp [this]
            · by_cases hzy : c.val.toNat < b.val.toNat
              · simp [hyz, hzy] at h2
              · have g1 : ¬ a.val.toNat < c.val.toNat := by omega
                have g2 : ¬ c.val.toNat < a.val.toNat := by omega
                simp only [hxy, hyx, hyz, hzy, if_false] at h1 h2
                simp only [g1, g2, if_false]
                exact charListLt_trans h1 h2

theorem charListLt_connex : ∀ {a b : List Char}, charListLt a b = false →
    charListLt b a = false → a = b
  | [], [], _, _ => rfl
  | [], _ :: _, h, _ => by simp [charListLt] at h
  | _ :: _, [], _, h => by simp [charListLt] at h
  | a :: as, b :: bs, h1, h2 => by
    simp only [charListLt] at h1 h2
    by_cases hxy : a.val.toNat < b.val.toNat
    · simp [hxy] at h1
    · by_cases hyx : b.val.toNat < a.val.toNat
      · simp [hyx] at h2
      · have hab : a = b := Char.ext (UInt32.ext (by omega))
        subst hab
        simp only [hxy, hyx, if_false] at h1 h2
        rw [charListLt_connex h1 h2]

theorem str_ext {a b : String} (h : a.data = b.data) : a = b := by
  cases a; cases b; simp only at h; rw [h]

theorem strLt_irrefl (a : String) : strLt a a = false :=
  charListLt_irrefl a.data

theorem strLt_trans {a b c : String} (h1 : strLt a b = true)
    (h2 : strLt b c = true) : strLt a c = true :=
  charListLt_trans h1 h2

theorem strLt_connex {a b : String} (h1 : strLt a b = false)
    (h2 : strLt b a = false) : a = b :=
  str_ext (charListLt_connex h1 h2)

theorem strLt_asymm {a b : String} (h : strLt a b = true) : strLt b a = false :=
  charListLt_asymm h

/-! Order facts about the NaT-last start-date comparison. -/

theorem optStartLE_refl : ∀ a, optStartLE a a = true
  | none => rfl
  | some a => by simp [optStartLE]

theorem optStartLE_trans : ∀ {a b c : Option Int}, optStartLE a b = true →
    optStartLE b c = true → optStartLE a c = true
  | none, none, _, _, h2 => h2
  | none, some _, _, h1, _ => by simp [optStartLE] at h1
  | some _, none, none, _, _ => rfl
  | some _, none, some _, _, h2 => by simp [optStartLE] at h2
  | some _, some _, none, _, _ => rfl
  | some x, some y, some z, h1, h2 => by
    simp only [optStartLE, decide_eq_true_eq] at h1 h2 ⊢
    omega

theorem optStartLE_total : ∀ a b, optStartLE a b = true ∨ optStartLE b a = true
  | none, none => .inl rfl
  | none, some _ => .inr rfl
  | some _, none => .inl rfl
  | some x, some y => by simp only [optStartLE, decide_eq_true_eq]; omega

/-! Order facts about the (Team, StartDate) sort key. -/

theorem rowLE_trans {a b c : Row} (h1 : rowLE a b = true)
    (h2 : rowLE b c = true) : rowLE a c = true := by
  unfold rowLE at h1 h2 ⊢
  by_cases tab : a.team = b.team
  · by_cases tbc : b.team = c.team
    · have tac : a.team = c.team := tab.trans tbc
      rw [if_pos tab] at h1; rw [if_pos tbc] at h2; rw [if_pos tac]
      exact optStartLE_trans h1 h2
    · rw [if_neg tbc] at h2
      have tac : a.team ≠ c.team := by rw [tab]; exact tbc
      rw [if_neg tac, tab]; exact h2
  · rw [if_neg tab] at h1
    by_cases tbc : b.team = c.team
    · have tac : a.team ≠ c.team := by rw [← tbc]; exact tab
      rw [if_neg tac, ← tbc]; exact h1
    · rw [if_neg tbc] at h2
      have hlt : strLt a.team c.team = true := strLt_trans h1 h2
      have tac : a.team ≠ c.team := by
        intro e
        rw [e] at h1
        have hfalse := strLt_asymm h2
        rw [h1] at hfalse
        simp at hfalse
      rw [if_neg tac]; exact hlt

theorem rowLE_total (a b : Row) : rowLE a b = true ∨ rowLE b a = true := by
  unfold rowLE
  by_cases tab : a.team = b.team
  · rw [if_pos tab, if_pos tab.symm]
    exact optStartLE_total _ _
  · rw [if_neg tab, if_neg (Ne.symm tab)]
    cases hab : strLt a.team b.team
    · cases hba : strLt b.team a.team
      · exact absurd (strLt_connex hab hba) tab
      · exact .inr rfl
    · exact .inl rfl

theorem rowLE_of_keyEq {a b : Row} (ht : a.team = b.team)
    (hs : a.startDate = b.startDate) : rowLE a b = true := by
  unfold rowLE
  rw [if_pos ht, hs]
  exact optStartLE_refl _

theorem rowLE_dest {a b : Row} (h : rowLE a b = true) :
    strLt a.team b.team = true ∨
      (a.team = b.team ∧ optStartLE a.startDate b.startDate = true) := by
  unfold rowLE at h
  by_cases tab : a.team = b.team
  · rw [if_pos tab] at h
    exact .inr ⟨tab, h⟩
  · rw [if_neg tab] at h
    exact .inl h

/-! Generic facts about the stable insertion sort. -/

theorem sortInsert_perm (le : α → α → Bool) (x : α) :
    ∀ l, List.Perm (sortInsert le x l) (x :: l)
  | [] => .refl _
  | y :: ys => by
    simp only [sortInsert]
    split
    · exact .refl _
    · exact ((sortInsert_perm le x ys).cons y).trans (List.Perm.swap x y ys)

theorem stableSort_perm (le : α → α → Bool) : ∀ l, List.Perm (stableSort le l) l
  | [] => .refl _
  | x :: xs =>
    (sortInsert_perm le x (stableSort le xs)).trans
      ((stableSort_perm le xs).cons x)

theorem mem_stableSort {le : α → α → Bool} {l : List α} {a : α} :
    a ∈ stableSort le l ↔ a ∈ l :=
  (stableSort_perm le l).mem_iff

theorem length_stableSort (le : α → α → Bool) (l : List α) :
    (stableSort le l).length = l.length :=
  (stableSort_perm le l).length_eq

theorem pairwise_sortInsert (le : α → α → Bool)
    (htrans : ∀ a b c, le a b = true → le b c = true → le a c = true)
    (htotal : ∀ a b, le a b = true ∨ le b a = true) (x : α) :
    ∀ {l : List α}, l.Pairwise (fun a b => le a b = true) →
      (sortInsert le x l).Pairwise (fun a b => le a b = true)
  | [], _ => by simp [sortInsert]
  | y :: ys, hp => by
    rcases List.pairwise_cons.mp hp with ⟨hy, hys⟩
    simp only [sortInsert]
    split
    next hxy =>
      refine List.pairwise_cons.mpr ⟨?_, hp⟩
      intro z hz
      rcases List.mem_cons.mp hz with rfl | hz
      · exact hxy
      · exact htrans x y z hxy (hy z hz)
    next hxy =>
      have hyx : le y x = true := by
        rcases htotal x y with h | h
        · exact absurd h hxy
        · exact h
      refine List.pairwise_cons.mpr
        ⟨?_, pairwise_sortInsert le htrans htotal x hys⟩
      intro z hz
      have : z = x ∨ z ∈ ys := by
        have hz2 := (sortInsert_perm le x ys).mem_iff.mp hz
        simpa using hz2
      rcases this with rfl | hz2
      · exact hyx
      · exact hy z hz2

theorem pairwise_stableSort (le : α → α → Bool)
    (htrans : ∀ a b c, le a b = true → le b c = true → le a c = true)
    (htotal : ∀ a b, le a b = true ∨ le b a = true) :
    ∀ l : List α, (stableSort le l).Pairwise (fun a b => le a b = true)
  | [] => .nil
  | x :: xs =>
    pairwise_sortInsert le htrans htotal x
      (pairwise_stableSort le htrans htotal xs)

theorem filter_sortInsert_pos (le : α → α → Bool) (p : α → Bool) (x : α)
    (hx : p x = true) :
    ∀ l, (∀ y ∈ l, p y = true → le x y = true) →
      (sortInsert le x l).filter p = x :: l.filter p
  | [], _ => by simp [sortInsert, hx]
  | y :: ys, h => by
    simp only [sortInsert]
    split
    next => simp [List.filter_cons, hx]
    next hxy =>
      have hpy : p y = false := by
        cases hpy : p y
        · rfl
        · exact absurd (h y (by simp) hpy) (by simpa using hxy)
      have hrec := filter_sortInsert_pos le p x hx ys
        (fun z hz hpz => h z (List.mem_cons_of_mem y hz) hpz)
      simp [List.filter_cons, hpy, hrec]

theorem filter_sortInsert_neg (le : α → α → Bool) (p : α → Bool) (x : α)
    (hx : p x = false) :
    ∀ l, (sortInsert le x l).filter p = l.filter p
  | [] => by simp [sortInsert, hx]
  | y :: ys => by
    simp only [sortInsert]
    split
    · simp [List.filter_cons, hx]
    · simp [List.filter_cons, filter_sortInsert_neg le p x hx ys]

theorem filter_stableSort (le : α → α → Bool) (p : α → Bool)
    (hkey : ∀ x y, p x = true → p y = true → le x y = true) :
    ∀ l, (stableSort le l).filter p = l.filter p
  | [] => rfl
  | x :: xs => by
    cases hx : p x
    · rw [stableSort, filter_sortInsert_neg le p x hx,
        filter_stableSort le p hkey xs]
      simp [List.filter_cons, hx]
    · rw [stableSort,
        filter_sortInsert_pos le p x hx _ (fun y hy hpy => hkey x y hx hpy),
        filter_stableSort le p hkey xs]
      simp [List.filter_cons, hx]

/-! Facts about the cleaning pipeline. -/

theorem normalizeRow_endDate (r : RawRow) : (normalizeRow r).endDate = r.endDate :=
  rfl

theorem normalizeRow_start_isSome {r : RawRow} (h : r.endDate.isSome) :
    (normalizeRow r).startDate.isSome := by
  unfold normalizeRow
  by_cases h0 : r.startDate = none ∧ r.endDate.isSome
  · simp only [if_pos h0]
    simpa using h
  · simp only [if_neg h0]
    rcases hs : r.startDate with _ | s
    · exact absurd ⟨hs, h⟩ h0
    · rfl

theorem swapFix_swap {r : Row} {s e : Int} (hs : r.startDate = some s)
    (he : r.endDate = some e) (hlt : e < s) :
    (swapFix r).startDate = some e ∧ (swapFix r).endDate = some s := by
  unfold swapFix
  simp only [hs, he]
  rw [if_pos hlt]
  exact ⟨rfl, rfl⟩

theorem swapFix_keep {r : Row} {s e : Int} (hs : r.startDate = some s)
    (he : r.endDate = some e) (hge : ¬ e < s) : swapFix r = r := by
  unfold swapFix
  simp only [hs, he]
  rw [if_neg hge]

theorem swapFix_bounds {r : Row} {s e : Int} (hs : r.startDate = some s)
    (he : r.endDate = some e) :
    ∃ s2 e2, (swapFix r).startDate = some s2 ∧ (swapFix r).endDate = some e2 ∧
      s2 ≤ e2 := by
  by_cases hlt : e < s
  · obtain ⟨h1, h2⟩ := swapFix_swap hs he hlt
    exact ⟨e, s, h1, h2, by omega⟩
  · rw [swapFix_keep hs he hlt]
    exact ⟨s, e, hs, he, by omega⟩

theorem mem_survivors_bounds {df : List RawRow} {row : Row}
    (h : row ∈ survivors df) :
    ∃ s e, row.startDate = some s ∧ row.endDate = some e ∧ s ≤ e := by
  unfold survivors at h
  rcases List.mem_map.mp h with ⟨r1, hr1, rfl⟩
  rcases List.mem_filter.mp hr1 with ⟨hr1m, hend⟩
  rcases List.mem_map.mp hr1m with ⟨r0, _, rfl⟩
  have hstart := normalizeRow_start_isSome
    (by simpa [normalizeRow_endDate] using hend)
  rcases hs : (normalizeRow r0).startDate with _ | s
  · rw [hs] at hstart; simp at hstart
  · rcases he : (normalizeRow r0).endDate with _ | e
    · rw [he] at hend; simp at hend
    · exact swapFix_bounds hs he

theorem mem_clean_iff {df : List RawRow} {row : Row} :
    row ∈ clean_and_validate_data df ↔ row ∈ survivors df :=
  mem_stableSort

theorem attachOrders_map_order : ∀ (n : Nat) (l : List Row),
    (attachOrders n l).map (·.order) = List.range' n l.length
  | _, [] => rfl
  | n, r :: rs => by
    simp [attachOrders, List.range', attachOrders_map_order (n + 1) rs]

theorem events_map_order (df : List RawRow) :
    (events df).map (·.order) =
      List.range (clean_and_validate_data df).length := by
  unfold events
  rw [attachOrders_map_order, List.range_eq_range']

/-! Facts about the maximum end date. -/

theorem maxEnd_go : ∀ (l : List Event) (acc : Option Int) (M : Int),
    l.foldl maxEndStep acc = some M →
    (∀ a, acc = some a → a ≤ M) ∧
    (∀ e ∈ l, ∀ d, e.endDate = some d → d ≤ M) ∧
    (acc = some M ∨ some M ∈ l.map (·.endDate))
  | [], acc, M, h => by
    simp only [List.foldl_nil] at h
    refine ⟨fun a ha => ?_, fun e he => absurd he (List.not_mem_nil e), .inl h⟩
    rw [h] at ha
    injection ha with ha
    omega
  | e :: es, acc, M, h => by
    simp only [List.foldl_cons] at h
    obtain ⟨ihacc, ihmem, ihor⟩ := maxEnd_go es (maxEndStep acc e) M h
    refine ⟨?_, ?_, ?_⟩
    · intro a ha
      have hb : ∃ b, maxEndStep acc e = some b ∧ a ≤ b := by
        rcases hd : e.endDate with _ | d
        · exact ⟨a, by simp [maxEndStep, ha, hd], by omega⟩
        · exact ⟨max a d, by simp [maxEndStep, ha, hd], le_max_left a d⟩
      obtain ⟨b, hb, hab⟩ := hb
      exact le_trans hab (ihacc b hb)
    · intro e2 he2 d hd
      rcases List.mem_cons.mp he2 with rfl | he2
      · have hb : ∃ b, maxEndStep acc e2 = some b ∧ d ≤ b := by
          rcases hacc : acc with _ | m
          · exact ⟨d, by simp [maxEndStep, hacc, hd], by omega⟩
          · exact ⟨max m d, by simp [maxEndStep, hacc, hd], le_max_right m d⟩
        obtain ⟨b, hb, hdb⟩ := hb
        exact le_trans hdb (ihacc b hb)
      · exact ihmem e2 he2 d hd
    · rcases ihor with heq | hmem
      · rcases hacc : acc with _ | m
        · rcases hd : e.endDate with _ | d
          · simp [maxEndStep, hacc, hd] at heq
          · simp only [maxEndStep, hacc, hd] at heq
            refine .inr ?_
            simp only [List.map_cons, List.mem_cons]
            exact .inl (hd.trans heq).symm
        · rcases hd : e.endDate with _ | d
          · simp only [maxEndStep, hacc, hd] at heq
            exact .inl heq
          · simp only [maxEndStep, hacc, hd, Option.some.injEq] at heq
            rcases max_choice m d with hc | hc
            · exact .inl (by rw [← heq, hc])
            · refine .inr ?_
              simp only [List.map_cons, List.mem_cons]
              exact .inl (by rw [hd, ← heq, hc])

      · refine .inr ?_
        simp only [List.map_cons, List.mem_cons]
        exact .inr hmem

theorem maxEndDate_le {l : List Event} {M : Int} (hM : maxEndDate l = some M)
    {e : Event} (he : e ∈ l) {d : Int} (hd : e.endDate = some d) : d ≤ M :=
  (maxEnd_go l none M hM).2.1 e he d hd

theorem maxEndDate_mem {l : List Event} {M : Int}
    (hM : maxEndDate l = some M) : some M ∈ l.map (·.endDate) := by
  rcases (maxEnd_go l none M hM).2.2 with h | h
  · simp at h
  · exact h

/-! Facts about the color assignment. -/

theorem lookupOpt_mem : ∀ {tbl : List (String × String)} {k v : String},
    lookupOpt tbl k = some v → (k, v) ∈ tbl
  | [], k, v, h => by simp [lookupOpt] at h
  | (a, b) :: rest, k, v, h => by
    simp only [lookupOpt] at h
    split at h
    next heq =>
      injection h with h
      subst heq; subst h
      exact List.mem_cons_self _ _
    next => exact List.mem_cons_of_mem _ (lookupOpt_mem h)

theorem lookupOpt_cons_self (k b : String) (rest : List (String × String)) :
    lookupOpt ((k, b) :: rest) k = some b := by
  simp [lookupOpt]

theorem lookupOpt_cons_ne {a k : String} (h : a ≠ k) (b : String)
    (rest : List (String × String)) :
    lookupOpt ((a, b) :: rest) k = lookupOpt rest k := by
  simp [lookupOpt, h]

theorem lookupD_assignColors : ∀ (l : List String) (i : Nat) {t : String},
    t ∈ l →
    lookupD (assignColors i l) t "" =
      (match lookupOpt default_colors t with
       | some c => c
       | none => plotly_colors.getD ((i + rankIn t l) % plotly_colors.length) "")
  | [], _, t, ht => absurd ht (List.not_mem_nil t)
  | a :: as, i, t, ht => by
    by_cases hat : a = t
    · subst hat
      have hrank : rankIn a (a :: as) = 0 := by simp [rankIn]
      rw [hrank, Nat.add_zero]
      simp only [assignColors, lookupD, lookupOpt_cons_self, Option.getD_some]
    · have ht2 : t ∈ as := by
        rcases List.mem_cons.mp ht with rfl | h2
        · exact absurd rfl hat
        · exact h2
      have hstep : lookupD (assignColors i (a :: as)) t "" =
          lookupD (assignColors (i + 1) as) t "" := by
        simp only [assignColors, lookupD]
        rw [lookupOpt_cons_ne hat]
      rw [hstep, lookupD_assignColors as (i + 1) ht2]
      have harith : i + 1 + rankIn t as = i + rankIn t (a :: as) := by
        simp only [rankIn, if_neg hat]
        omega
      rw [harith]

theorem teamColor_eq (teams : List String) {t : String} (ht : t ∈ teams) :
    teamColor teams t =
      (match lookupOpt default_colors t with
       | some c => c
       | none =>
           plotly_colors.getD
             (rankIn t (sortedUnique teams) % plotly_colors.length) "") := by
  have ht2 : t ∈ sortedUnique teams :=
    mem_stableSort.mpr (List.mem_dedup.mpr ht)
  unfold teamColor get_team_color_mapping
  rw [lookupD_assignColors _ 0 ht2]
  simp

theorem lookupOpt_default_colors {t c : String} (h : (t, c) ∈ default_colors) :
    lookupOpt default_colors t = some c := by
  have hall : default_colors.all
      (fun p => lookupOpt default_colors p.1 == some p.2) = true := by decide
  exact eq_of_beq (List.all_eq_true.mp hall _ h)

theorem countP_end_split : ∀ df : List RawRow,
    df.length = df.countP (fun r => r.endDate.isSome) +
      df.countP (fun r => r.endDate.isNone)
  | [] => rfl
  | r :: rs => by
    simp only [List.countP_cons, List.length_cons, countP_end_split rs]
    rcases r.endDate with _ | d <;> simp <;> omega

theorem clean_length (df : List RawRow) :
    (clean_and_validate_data df).length =
      df.countP (fun r => r.endDate.isSome) := by
  unfold clean_and_validate_data survivors
  rw [length_stableSort, List.length_map, ← List.countP_eq_length_filter,
    List.countP_map]
  rfl

/-! Facts about the chart construction. -/

theorem chartTraces_of_ne {evs : List Event} {ts ss ls : List String}
    {now : Int} (hne : filterEvents evs ts ss ls ≠ []) :
    chartTraces evs ts ss ls now =
      (filterEvents evs ts ss ls).map (fun e =>
        { team := e.team
          color := lookupD (get_team_color_mapping (evs.map (·.team))) e.team ""
          y := e.order, x0 := e.startDate, x1 := e.endDate
          eventType := e.eventType : Trace}) := by
  have hfe : (filterEvents evs ts ss ls).isEmpty = false := by
    simpa [List.isEmpty_iff] using hne
  simp [chartTraces, create_timeline_chart, hfe]

theorem chartTraces_color {evs : List Event} {ts ss ls : List String}
    {now : Int} {tr : Trace} (h : tr ∈ chartTraces evs ts ss ls now) :
    tr.color = teamColor (evs.map (·.team)) tr.team := by
  rcases hfe : (filterEvents evs ts ss ls).isEmpty with hf | ht
  · rw [chartTraces_of_ne (by simpa [List.isEmpty_iff] using hfe)] at h
    rcases List.mem_map.mp h with ⟨e, _, rfl⟩
    rfl
  · simp [chartTraces, create_timeline_chart, hfe] at h

/-! Claim theorems. -/

/-- C1: the Chronological Organizer sorts the surviving rows by team
(code-point lexicographic, ascending) then by start (ascending), so any
two consecutive output rows satisfy `team[i] < team[i+1]` or
`team[i] = team[i+1] ∧ start[i] ≤ start[i+1]`; ties on the whole
(team, start) key keep their original relative order (stable sort,
stated as a filter equation against the pre-sort row list); `order` is
then assigned as the zero-based position of the sorted sequence. -/
theorem c1_chronological_sort (df : List RawRow) (i : Nat)
    (hi : i + 1 < (clean_and_validate_data df).length)
    (t : String) (s : Option Int) :
    (strLt (clean_and_validate_data df)[i].team
        (clean_and_validate_data df)[i + 1].team = true ∨
      ((clean_and_validate_data df)[i].team =
          (clean_and_validate_data df)[i + 1].team ∧
        optStartLE (clean_and_validate_data df)[i].startDate
          (clean_and_validate_data df)[i + 1].startDate = true)) ∧
    (events df).map (·.order) =
      List.range (clean_and_validate_data df).length ∧
    (clean_and_validate_data df).filter
        (fun r => decide (r.team = t ∧ r.startDate = s)) =
      (survivors df).filter
        (fun r => decide (r.team = t ∧ r.startDate = s)) := by
  refine ⟨?_, events_map_order df, ?_⟩
  · have hpair := pairwise_stableSort rowLE
      (fun a b c => rowLE_trans) rowLE_total (survivors df)
    have hR := (List.pairwise_iff_getElem.mp hpair) i (i + 1)
      (by simpa [clean_and_validate_data, length_stableSort] using
        Nat.lt_of_succ_lt hi)
      (by simpa [clean_and_validate_data, length_stableSort] using hi)
      (by omega)
    exact rowLE_dest hR
  · refine filter_stableSort rowLE _ ?_ (survivors df)
    intro x y hx hy
    obtain ⟨hxt, hxs⟩ := of_decide_eq_true hx
    obtain ⟨hyt, hys⟩ := of_decide_eq_true hy
    exact rowLE_of_keyEq (hxt.trans hyt.symm) (hxs.trans hys.symm)

/-- Witness for C1 at a concrete snapshot of three rows. -/
theorem c1_witness :
    0 + 1 < (clean_and_validate_data c1df).length ∧
    (events c1df).map (·.order) =
      List.range (clean_and_validate_data c1df).length ∧
    (clean_and_validate_data c1df).filter
        (fun r => decide (r.team = "A" ∧ r.startDate = some 5)) =
      (survivors c1df).filter
        (fun r => decide (r.team = "A" ∧ r.startDate = some 5)) :=
  ⟨by decide, (c1_chronological_sort c1df 0 (by decide) "A" (some 5)).2.1,
    (c1_chronological_sort c1df 0 (by decide) "A" (some 5)).2.2⟩

/-- C2: a record whose start is absent after date coercion and whose end
is present is normalized to a deadline with a synthesized start of one
day before its end; a record outside that case is normalized to a
ranged (`"normal"`) event. -/
theorem c2_deadline_inference (r : RawRow) (d : Int)
    (hs : r.startDate = none) (he : r.endDate = some d)
    (r2 : RawRow) (h2 : ¬ (r2.startDate = none ∧ r2.endDate.isSome)) :
    (normalizeRow r).eventType = "deadline" ∧
    (normalizeRow r).startDate = some (d - 1) ∧
    (normalizeRow r2).eventType = "normal" := by
  have hc : r.startDate = none ∧ r.endDate.isSome := ⟨hs, by rw [he]; rfl⟩
  refine ⟨?_, ?_, ?_⟩
  · simp [normalizeRow, hc]
  · simp [normalizeRow, hc, he]
  · simp [normalizeRow, h2]

/-- Witness for C2: the spec example, end 2024-06-01 with no start gives
a deadline starting 2024-05-31. -/
theorem c2_witness :
    (mkRaw "公關組" "d1" none (some (dateToDays 2024 6 1))).startDate = none ∧
    (normalizeRow
        (mkRaw "公關組" "d1" none (some (dateToDays 2024 6 1)))).eventType =
      "deadline" ∧
    (normalizeRow
        (mkRaw "公關組" "d1" none (some (dateToDays 2024 6 1)))).startDate =
      some (dateToDays 2024 5 31) := by
  have h := c2_deadline_inference
    (mkRaw "公關組" "d1" none (some (dateToDays 2024 6 1)))
    (dateToDays 2024 6 1) rfl rfl (mkRaw "x" "x" (some 0) none)
    (by decide)
  exact ⟨rfl, h.1, by rw [h.2.1]; decide⟩

/-- C3: when a normalized candidate has end earlier than start the
validator swaps the two bounds rather than rejecting the record, and
every row that survives `clean_and_validate_data` satisfies
`start ≤ end`. -/
theorem c3_swap_repair (r : Row) (s e : Int)
    (hs : r.startDate = some s) (he : r.endDate = some e) (hlt : e < s)
    (df : List RawRow) (row : Row)
    (hmem : row ∈ clean_and_validate_data df) (s2 e2 : Int)
    (hs2 : row.startDate = some s2) (he2 : row.endDate = some e2) :
    (swapFix r).startDate = some e ∧ (swapFix r).endDate = some s ∧
      s2 ≤ e2 := by
  obtain ⟨h1, h2⟩ := swapFix_swap hs he hlt
  refine ⟨h1, h2, ?_⟩
  obtain ⟨s3, e3, hs3, he3, hle⟩ :=
    mem_survivors_bounds (mem_clean_iff.mp hmem)
  rw [hs3] at hs2
  rw [he3] at he2
  injection hs2 with hs2
  injection he2 with he2
  omega

/-- Witness for C3: the spec example, start 2024-05-10 and end
2024-05-01 survive as the swapped range [2024-05-01, 2024-05-10]. -/
theorem c3_witness :
    c3row ∈ clean_and_validate_data c3df ∧
    (swapFix c3pre).startDate = some (dateToDays 2024 5 1) ∧
    (swapFix c3pre).endDate = some (dateToDays 2024 5 10) ∧
    dateToDays 2024 5 1 ≤ dateToDays 2024 5 10 := by
  have h := c3_swap_repair c3pre (dateToDays 2024 5 10)
    (dateToDays 2024 5 1) rfl rfl (by decide) c3df c3row (by decide)
    (dateToDays 2024 5 1) (dateToDays 2024 5 10) (by decide) (by decide)
  exact ⟨by decide, h.1, h.2.1, h.2.2⟩

/-- C4: rows without a resolvable end date are silently dropped: every
surviving row has an end date, and the drop count — the difference
between the input length and the output length — is exactly the number
of input rows whose end date did not resolve. -/
theorem c4_drop_rule (df : List RawRow) (row : Row)
    (hmem : row ∈ clean_and_validate_data df) :
    df.length = (clean_and_validate_data df).length +
        df.countP (fun r => r.endDate.isNone) ∧
    row.endDate.isSome := by
  refine ⟨?_, ?_⟩
  · rw [clean_length]
    exact countP_end_split df
  · obtain ⟨s3, e3, _, he3, _⟩ :=
      mem_survivors_bounds (mem_clean_iff.mp hmem)
    rw [he3]
    rfl

/-- Witness for C4: one end-less row out of two is dropped and counted. -/
theorem c4_witness :
    c4row ∈ clean_and_validate_data c4df ∧
    c4df.length = (clean_and_validate_data c4df).length +
        c4df.countP (fun r => r.endDate.isNone) ∧
    c4row.endDate.isSome :=
  ⟨by decide, (c4_drop_rule c4df c4row (by decide)).1,
    (c4_drop_rule c4df c4row (by decide)).2⟩

/-- C5: for a non-empty filtered set the default viewport is
`[now - 30 days, max filtered end]` — the upper bound is attained by a
filtered event and bounds every filtered end date — and for an empty
filtered set the chart function short-circuits to `none` before any
viewport computation. -/
theorem c5_default_viewport (df : List Event) (ts ss ls : List String)
    (now : Int) (hne : filterEvents df ts ss ls ≠ [])
    (e : Event) (hme : e ∈ filterEvents df ts ss ls) (d : Int)
    (hd : e.endDate = some d) (M : Int)
    (hM : maxEndDate (filterEvents df ts ss ls) = some M)
    (df2 : List Event) (ts2 ss2 ls2 : List String) (now2 : Int)
    (h2 : filterEvents df2 ts2 ss2 ls2 = []) :
    (create_timeline_chart df ts ss ls now).map (·.viewportLo) =
      some (now - 30) ∧
    (create_timeline_chart df ts ss ls now).map (·.viewportHi) =
      some (maxEndDate (filterEvents df ts ss ls)) ∧
    d ≤ M ∧ some M ∈ (filterEvents df ts ss ls).map (·.endDate) ∧
    create_timeline_chart df2 ts2 ss2 ls2 now2 = none := by
  have hfe : (filterEvents df ts ss ls).isEmpty = false := by
    simpa [List.isEmpty_iff] using hne
  refine ⟨?_, ?_, maxEndDate_le hM hme hd, maxEndDate_mem hM, ?_⟩
  · simp [create_timeline_chart, hfe]
  · simp [create_timeline_chart, hfe]
  · simp [create_timeline_chart, h2]

/-- Witness for C5: the spec example with now = 2024-07-10 and filtered
maximal end 2024-08-01 (the unfiltered maximum 2024-09-01 is not
used). -/
theorem c5_witness :
    filterEvents c5events ["A"] [] [] ≠ [] ∧
    (create_timeline_chart c5events ["A"] [] []
        (dateToDays 2024 7 10)).map (·.viewportLo) =
      some (dateToDays 2024 6 10) ∧
    (create_timeline_chart c5events ["A"] [] []
        (dateToDays 2024 7 10)).map (·.viewportHi) =
      some (some (dateToDays 2024 8 1)) ∧
    create_timeline_chart c5events [] ["nosuch"] [] 0 = none := by
  have h := c5_default_viewport c5events ["A"] [] [] (dateToDays 2024 7 10)
    (by decide)
    (mkEv "A" "Done" "執行" (some (dateToDays 2024 7 1))
      (some (dateToDays 2024 8 1)) 0)
    (by decide) (dateToDays 2024 8 1) (by decide) (dateToDays 2024 8 1)
    (by decide) c5events [] ["nosuch"] [] 0 (by decide)
  refine ⟨by decide, ?_, ?_, h.2.2.2.2⟩
  · rw [h.1]; decide
  · rw [h.2.1]; decide

/-- C6: the Filter Engine returns exactly the subsequence of the input
collection matching the conjunction of the three inclusion predicates,
an empty selection meaning no restriction; the result is a sublist of
the input (no re-sorting, elements — hence their `order` values —
unchanged), and empty selections return the input unchanged. -/
theorem c6_filter_engine (df : List Event) (ts ss ls : List String) :
    filterEvents df ts ss ls =
      df.filter (fun e =>
        (ts.isEmpty || ts.contains e.team) &&
        (ss.isEmpty || ss.contains e.status) &&
        (ls.isEmpty || ls.contains e.level)) ∧
    List.Sublist (filterEvents df ts ss ls) df ∧
    filterEvents df [] [] [] = df := by
  have h1 : filterEvents df ts ss ls =
      df.filter (fun e =>
        (ts.isEmpty || ts.contains e.team) &&
        (ss.isEmpty || ss.contains e.status) &&
        (ls.isEmpty || ls.contains e.level)) := by
    cases hts : ts.isEmpty <;> cases hss : ss.isEmpty <;>
      cases hls : ls.isEmpty <;>
      simp [filterEvents, hts, hss, hls, List.filter_filter,
        Bool.and_comm, Bool.and_assoc, Bool.and_left_comm]
  refine ⟨h1, ?_, rfl⟩
  rw [h1]
  exact List.filter_sublist df

/-- C7: a team present in the fixed color table always receives its
preferred color; a team absent from it receives the fallback-palette
color indexed by its rank in the sorted distinct team names of the full
collection, modulo the palette length; and the color drawn for a team
in any chart run over the same full collection is the same regardless
of the filter selection and clock. -/
theorem c7_team_colors (teams : List String) (t tc : String)
    (hk : (t, tc) ∈ default_colors) (ht : t ∈ teams)
    (u : String) (hu : u ∈ teams)
    (hn : lookupOpt default_colors u = none)
    (evs : List Event) (tsA ssA lsA tsB ssB lsB : List String)
    (nowA nowB : Int) (trA trB : Trace)
    (hA : trA ∈ chartTraces evs tsA ssA lsA nowA)
    (hB : trB ∈ chartTraces evs tsB ssB lsB nowB)
    (hteam : trA.team = trB.team) :
    teamColor teams t = tc ∧
    teamColor teams u =
      plotly_colors.getD
        (rankIn u (sortedUnique teams) % plotly_colors.length) "" ∧
    trA.color = trB.color := by
  refine ⟨?_, ?_, ?_⟩
  · rw [teamColor_eq teams ht, lookupOpt_default_colors hk]
  · rw [teamColor_eq teams hu, hn]
  · rw [chartTraces_color hA, chartTraces_color hB, hteam]

/-- Witness for C7 at a concrete collection: the known team keeps its
preferred color, the unknown team gets its rank-indexed fallback color,
and a trace of a filtered and of an unfiltered run agree. -/
theorem c7_witness :
    ("行政組", "#1E88E5") ∈ default_colors ∧
    teamColor ["Z", "A", "行政組"] "行政組" = "#1E88E5" ∧
    teamColor ["Z", "A", "行政組"] "A" = "#1E88E5" ∧
    c7trace ∈ chartTraces c7evs ["A"] [] [] 5 ∧
    c7trace ∈ chartTraces c7evs [] [] [] 7 := by
  have h := c7_team_colors ["Z", "A", "行政組"] "行政組" "#1E88E5"
    (by decide) (by decide) "A" (by decide) (by decide)
    c7evs ["A"] [] [] [] [] [] 5 7 c7trace c7trace
    (by decide) (by decide) rfl
  refine ⟨by decide, h.1, ?_, by decide, by decide⟩
  rw [h.2.1]; decide

/-- C8 counterexample: the chart output is not a pure function of the
snapshot and the filter selection alone — two runs over the identical
event collection and identical (empty) filters, at clock readings one
day apart, produce different outputs, because the viewport lower bound
is `datetime.now()` minus 30 days. -/
theorem c8_counterexample :
    create_timeline_chart c8events [] [] [] 0 ≠
      create_timeline_chart c8events [] [] [] 1 := by
  decide

/-- C8 amended: two runs over the same snapshot with the same filters
produce identical traces (event order and colors), identical height,
identical viewport upper bound and identical presence, whatever the two
clock readings; only the viewport lower bound and the today marker
track the clock, so runs sharing the clock reading agree entirely. -/
theorem c8_determinism_amended (df : List Event) (ts ss ls : List String)
    (n1 n2 : Int) :
    chartTraces df ts ss ls n1 = chartTraces df ts ss ls n2 ∧
    (create_timeline_chart df ts ss ls n1).map (·.height) =
      (create_timeline_chart df ts ss ls n2).map (·.height) ∧
    (create_timeline_chart df ts ss ls n1).map (·.viewportHi) =
      (create_timeline_chart df ts ss ls n2).map (·.viewportHi) ∧
    (create_timeline_chart df ts ss ls n1).isSome =
      (create_timeline_chart df ts ss ls n2).isSome := by
  cases hfe : (filterEvents df ts ss ls).isEmpty <;>
    simp [chartTraces, create_timeline_chart, hfe]

/-- C9: the status translation maps each entry of the fixed vocabulary
table onto one of the five canonical status values, leaves canonical
values unchanged, and passes every other value through verbatim; it is
total and never rejects a value. -/
theorem c9_status_translation (s : String) :
    (translateStatus s = s ∨ (s, translateStatus s) ∈ status_mapping) ∧
    status_mapping.all (fun p => canonicalStatuses.contains p.2) = true ∧
    canonicalStatuses.all (fun c => translateStatus c == c) = true := by
  refine ⟨?_, by decide, by decide⟩
  unfold translateStatus lookupD
  rcases h : lookupOpt status_mapping s with _ | v
  · exact .inl rfl
  · exact .inr (lookupOpt_mem h)

/-- C10: every row surviving cleaning and validation carries both a
start date and an end date, so downstream rendering can format both
unconditionally. -/
theorem c10_dates_present (df : List RawRow) (row : Row)
    (hmem : row ∈ clean_and_validate_data df) :
    row.startDate.isSome ∧ row.endDate.isSome := by
  obtain ⟨s, e, hs, he, _⟩ := mem_survivors_bounds (mem_clean_iff.mp hmem)
  rw [hs, he]
  exact ⟨rfl, rfl⟩

/-- Witness for C10: a start-less raw row survives with a synthesized
start and its end, both present. -/
theorem c10_witness :
    c10row ∈ clean_and_validate_data c10df ∧
    c10row.startDate.isSome ∧ c10row.endDate.isSome :=
  ⟨by decide, (c10_dates_present c10df c10row (by decide)).1,
    (c10_dates_present c10df c10row (by decide)).2⟩

end TWYA
